import Mathlib

/-!
Verification of the Aggregation & Comparison Engine of the
DataCleaningProjectFinal repository (src/src/analytics.py and
src/src/comparison.py) against its natural-language specification.

The engine is written as SQL queries issued from Python.  The shallow
embedding below models one period's validated rows (the tuples of an
original table restricted to status = 'included') as a list of records,
and re-expresses each SQL query as a pure function on such lists:

* DataAnalytics.create_common_names_table / create_analytics_table
  (name_frequencies, cumulative_names, top_80_names CTEs) become
  frequencyTable / coverageSet;
* DataAnalytics.create_duplicate_groups_view and the duplicate_analysis
  CTE of create_analytics_table become dupGroups / dupCount /
  totalDuplicateRecords;
* ComparisonAnalytics._create_common_names_table, _create_unique_jan_table,
  _create_unique_apr_table and _create_comparison_summary_table become
  comparisonEntries, uniqueJanRows, uniqueAprRows and comparisonSummary.

Modelling conventions: SQL text is String; ORDER BY on text columns is
modelled as codepoint order (lexLt below); LOWER and TRIM are modelled by
lowerStr and sqlTrim (ASCII case folding, trimming the space character,
matching the SQL defaults); the float column cumulative_percentage, which
the queries only build as an exact quotient of two row counts, is modelled
exactly as the rational mkRat cumulativeCount totalRecords; NULL of an
optional column is Option.none.  All sorting is done with insertionSort,
whose output is characterised purely by the order relation, exactly as an
ORDER BY clause is.
-/

namespace DataClean

/-- Codepoint (byte for ASCII) lexicographic strict order on character
lists, modelling how the database orders text values. -/
def lexLt : List Char → List Char → Bool
  | [], [] => false
  | [], _ :: _ => true
  | _ :: _, [] => false
  | a :: as, b :: bs => if a < b then true else if b < a then false else lexLt as bs

/-- ASCII lower-casing of one character, modelling SQL LOWER on one char. -/
def lowerChar (c : Char) : Char :=
  if 'A' ≤ c ∧ c ≤ 'Z' then Char.ofNat (c.toNat + 32) else c

/-- SQL LOWER: lower-case every character of the string. -/
def lowerStr (s : String) : String := ⟨s.data.map lowerChar⟩

/-- SQL TRIM with its default character: strip leading and trailing
spaces. -/
def sqlTrim (s : String) : String :=
  ⟨((s.data.dropWhile (fun c => c = ' ')).reverse.dropWhile (fun c => c = ' ')).reverse⟩

/-- LOWER(TRIM(firstname)), the normalization used by comparison.py
(spec: Normalized mode). -/
def normalizeName (s : String) : String := lowerStr (sqlTrim s)

/-- One row of an original table, as consumed by the analytics queries:
row_id, original_row_number, firstname, birthday, birthmonth, birthyear,
and whether status = 'included'.  NULL columns are none. -/
structure Record where
  rowId : Nat
  pos : Nat
  firstname : Option String
  birthday : Option Int
  birthmonth : Option Int
  birthyear : Option Int
  included : Bool
deriving Repr, DecidableEq

/-- The included_data CTE: rows WHERE status = 'included'. -/
def includedRecords (rs : List Record) : List Record := rs.filter (·.included)

/-- Row filter firstname IS NOT NULL AND firstname != ''. -/
def hasName (r : Record) : Bool :=
  match r.firstname with
  | some s => !(s == "")
  | none => false

/-- Included rows that pass the firstname filter (the rows feeding every
name-keyed aggregation). -/
def eligibleRecords (rs : List Record) : List Record :=
  (includedRecords rs).filter hasName

/-- The multiset of firstname values feeding the name_frequencies CTE
(raw values: the single-period analytics queries apply no LOWER/TRIM). -/
def eligibleNames (rs : List Record) : List String :=
  (eligibleRecords rs).filterMap (·.firstname)

/-- GROUP BY key with COUNT(*): one (value, count) pair per distinct
name occurring in the list. -/
def freqPairs (names : List String) : List (String × Nat) :=
  names.dedup.map (fun s => (s, names.count s))

/-- The ORDER BY frequency DESC, firstname relation used by the
cumulative window and by ROW_NUMBER in the queries. -/
def freqOrder (a b : String × Nat) : Prop :=
  b.2 < a.2 ∨ (a.2 = b.2 ∧ (lexLt a.1.data b.1.data = true ∨ a.1 = b.1))

instance : DecidableRel freqOrder := fun a b => by
  unfold freqOrder
  infer_instance

/-- One row of the cumulative_names / top_80_names result: firstname,
frequency, rank (ROW_NUMBER over the same ORDER BY), cumulative_count,
and total_records.  The float column cumulative_percentage is recovered
exactly by cumulativeFraction below. -/
structure FreqEntry where
  firstname : String
  frequency : Nat
  rank : Nat
  cumulativeCount : Nat
  totalRecords : Nat
deriving Repr, DecidableEq

/-- The cumulative_percentage column: cumulative_count::float /
total_records, modelled exactly as a rational. -/
def FreqEntry.cumulativeFraction (e : FreqEntry) : ℚ :=
  mkRat e.cumulativeCount e.totalRecords

/-- Walk the sorted (firstname, frequency) rows assigning ROW_NUMBER and
the running SUM(frequency) OVER (ORDER BY frequency DESC, firstname).
Since firstname is the group key, the window order has no peer rows and
the running sum is the plain prefix sum. -/
def attachCum (total : Nat) : List (String × Nat) → Nat → Nat → List FreqEntry
  | [], _, _ => []
  | (s, c) :: rest, rank, acc =>
      ⟨s, c, rank, acc + c, total⟩ :: attachCum total rest (rank + 1) (acc + c)

/-- The grouped rows sorted by frequency DESC, firstname (the ORDER BY
shared by the cumulative window and ROW_NUMBER). -/
def sortedFreqPairs (names : List String) : List (String × Nat) :=
  List.insertionSort freqOrder (freqPairs names)

/-- The full cumulative_names table over a given multiset of key values,
sorted by frequency DESC, firstname, with ranks 1..N and running sums.
total_records is SUM(COUNT(*)) OVER (), the number of contributing rows. -/
def frequencyTable (names : List String) : List FreqEntry :=
  attachCum names.length (sortedFreqPairs names) 1 0

/-- The WHERE cumulative_percentage <= 0.80 test of the top_80_names CTE. -/
def coverPred (e : FreqEntry) : Bool :=
  decide (e.cumulativeFraction ≤ mkRat 4 5)

/-- The top_80_names rows: WHERE cumulative_percentage <= 0.80. -/
def coverageSet (names : List String) : List FreqEntry :=
  (frequencyTable names).filter coverPred

/-- Single-period frequency table of analytics.py (Exact mode: raw
firstname values). -/
def exactFrequencyTable (rs : List Record) : List FreqEntry :=
  frequencyTable (eligibleNames rs)

/-- The rows of the _common_names table built by
DataAnalytics.create_common_names_table (Exact mode coverage set). -/
def exactCoverageSet (rs : List Record) : List FreqEntry :=
  coverageSet (eligibleNames rs)

lemma lexLt_irrefl : ∀ l : List Char, lexLt l l = false
  | [] => rfl
  | _ :: as => by simp [lexLt, lexLt_irrefl as]

lemma lexLt_total : ∀ a b : List Char, lexLt a b = true ∨ lexLt b a = true ∨ a = b
  | [], [] => Or.inr (Or.inr rfl)
  | [], _ :: _ => Or.inl rfl
  | _ :: _, [] => Or.inr (Or.inl rfl)
  | x :: xs, y :: ys => by
      rcases lt_trichotomy x y with h | h | h
      · left
        simp [lexLt, h]
      · subst h
        rcases lexLt_total xs ys with h' | h' | h'
        · left
          simp [lexLt, h']
        · right; left
          simp [lexLt, h']
        · right; right
          simp [h']
      · right; left
        simp [lexLt, h]

lemma lexLt_asymm : ∀ a b : List Char, lexLt a b = true → lexLt b a = true → False
  | [], [] => by simp [lexLt]
  | [], _ :: _ => by simp [lexLt]
  | _ :: _, [] => by simp [lexLt]
  | x :: xs, y :: ys => by
      intro h1 h2
      rcases lt_trichotomy x y with h | h | h
      · simp [lexLt, h, asymm h] at h2
      · subst h
        simp [lexLt] at h1 h2
        exact lexLt_asymm xs ys h1 h2
      · simp [lexLt, h, asymm h] at h1

lemma lexLt_nil_right : ∀ a : List Char, lexLt a [] = false
  | [] => rfl
  | _ :: _ => rfl

lemma lexLt_trans : ∀ a b c : List Char,
    lexLt a b = true → lexLt b c = true → lexLt a c = true
  | _, b, [] => by intro _ h2; rw [lexLt_nil_right b] at h2; cases h2
  | [], [], _ :: _ => by intro h1 _; cases h1
  | [], _ :: _, _ :: _ => by intro _ _; rfl
  | x :: xs, [], _ :: _ => by intro h1 _; cases h1
  | x :: xs, y :: ys, z :: zs => by
      intro h1 h2
      rcases lt_trichotomy x y with hxy | hxy | hxy
      · rcases lt_trichotomy y z with hyz | hyz | hyz
        · simp [lexLt, lt_trans hxy hyz]
        · subst hyz
          simp [lexLt, hxy]
        · simp [lexLt, hyz, asymm hyz] at h2
      · subst hxy
        rcases lt_trichotomy x z with hyz | hyz | hyz
        · simp [lexLt, hyz]
        · subst hyz
          simp [lexLt] at h1 h2 ⊢
          exact lexLt_trans xs ys zs h1 h2
        · simp [lexLt, hyz, asymm hyz] at h2
      · simp [lexLt, hxy, asymm hxy] at h1

lemma string_eq_of_data_eq {a b : String} (h : a.data = b.data) : a = b := by
  cases a
  cases b
  exact congrArg String.mk h

instance : IsTotal (String × Nat) freqOrder := by
  constructor
  intro a b
  rcases lt_trichotomy a.2 b.2 with h | h | h
  · right
    exact Or.inl h
  · rcases lexLt_total a.1.data b.1.data with h' | h' | h'
    · left
      exact Or.inr ⟨h, Or.inl h'⟩
    · right
      exact Or.inr ⟨h.symm, Or.inl h'⟩
    · left
      exact Or.inr ⟨h, Or.inr (string_eq_of_data_eq h')⟩
  · left
    exact Or.inl h

instance : IsTrans (String × Nat) freqOrder := by
  constructor
  intro a b c hab hbc
  rcases hab with hab | ⟨hab, hab'⟩
  · rcases hbc with hbc | ⟨hbc, _⟩
    · exact Or.inl (lt_trans hbc hab)
    · exact Or.inl (hbc ▸ hab)
  · rcases hbc with hbc | ⟨hbc, hbc'⟩
    · exact Or.inl (hab ▸ hbc)
    · refine Or.inr ⟨hab.trans hbc, ?_⟩
      rcases hab' with hab' | hab'
      · rcases hbc' with hbc' | hbc'
        · exact Or.inl (lexLt_trans _ _ _ hab' hbc')
        · exact Or.inl (hbc' ▸ hab')
      · rcases hbc' with hbc' | hbc'
        · exact Or.inl (hab' ▸ hbc')
        · exact Or.inr (hab'.trans hbc')

instance : IsAntisymm (String × Nat) freqOrder := by
  constructor
  intro a b hab hba
  rcases hab with hab | ⟨hab, hab'⟩
  · rcases hba with hba | ⟨hba, _⟩
    · exact absurd (lt_trans hab hba) (lt_irrefl _)
    · exact absurd (hba ▸ hab) (lt_irrefl _)
  · rcases hba with hba | ⟨_, hba'⟩
    · exact absurd (hab ▸ hba) (lt_irrefl _)
    · have hname : a.1 = b.1 := by
        rcases hab' with hab' | hab'
        · rcases hba' with hba' | hba'
          · exact absurd hab' (fun h => lexLt_asymm _ _ h hba')
          · exact hba'.symm
        · exact hab'
      exact Prod.ext hname hab

lemma attachCum_length (total : Nat) :
    ∀ (l : List (String × Nat)) (rank acc : Nat),
      (attachCum total l rank acc).length = l.length
  | [], _, _ => rfl
  | _ :: rest, rank, acc => by
      simp [attachCum, attachCum_length total rest]

lemma attachCum_map_rank (total : Nat) :
    ∀ (l : List (String × Nat)) (rank acc : Nat),
      (attachCum total l rank acc).map FreqEntry.rank = List.range' rank l.length
  | [], _, _ => rfl
  | p :: rest, rank, acc => by
      simp [attachCum, List.range'_succ, attachCum_map_rank total rest]

lemma attachCum_map_pair (total : Nat) :
    ∀ (l : List (String × Nat)) (rank acc : Nat),
      (attachCum total l rank acc).map (fun e => (e.firstname, e.frequency)) = l
  | [], _, _ => rfl
  | p :: rest, rank, acc => by
      cases p
      simp [attachCum, attachCum_map_pair total rest]

lemma attachCum_total_eq (total : Nat) :
    ∀ (l : List (String × Nat)) (rank acc : Nat),
      ∀ e ∈ attachCum total l rank acc, e.totalRecords = total
  | [], _, _ => by intro e he; cases he
  | p :: rest, rank, acc => by
      intro e he
      rcases List.mem_cons.mp he with he | he
      · subst he; rfl
      · exact attachCum_total_eq total rest _ _ e he

lemma attachCum_cum_ge (total : Nat) :
    ∀ (l : List (String × Nat)) (rank acc : Nat),
      ∀ e ∈ attachCum total l rank acc, acc ≤ e.cumulativeCount
  | [], _, _ => by intro e he; cases he
  | p :: rest, rank, acc => by
      intro e he
      rcases List.mem_cons.mp he with he | he
      · subst he; exact Nat.le_add_right acc p.2
      · exact le_trans (Nat.le_add_right acc p.2) (attachCum_cum_ge total rest _ _ e he)

lemma attachCum_pairwise_cum (total : Nat) :
    ∀ (l : List (String × Nat)) (rank acc : Nat),
      (attachCum total l rank acc).Pairwise
        (fun a b => a.cumulativeCount ≤ b.cumulativeCount)
  | [], _, _ => List.Pairwise.nil
  | p :: rest, rank, acc => by
      refine List.pairwise_cons.mpr ⟨?_, attachCum_pairwise_cum total rest _ _⟩
      intro e he
      exact attachCum_cum_ge total rest _ _ e he

lemma mkRat_nat_mono {c₁ c₂ : Nat} (t : Nat) (h : c₁ ≤ c₂) :
    mkRat c₁ t ≤ mkRat c₂ t := by
  rcases Nat.eq_zero_or_pos t with ht | ht
  · subst ht
    simp [Rat.mkRat_eq_div]
  · have h' : ((c₁ : ℤ) : ℚ) ≤ ((c₂ : ℤ) : ℚ) := by exact_mod_cast h
    have ht' : (0 : ℚ) < (t : ℚ) := by exact_mod_cast ht
    rw [Rat.mkRat_eq_div, Rat.mkRat_eq_div]
    exact div_le_div_of_nonneg_right h' ht'.le

lemma frequencyTable_pairwise_frac (names : List String) :
    (frequencyTable names).Pairwise
      (fun a b => a.cumulativeFraction ≤ b.cumulativeFraction) := by
  have h := attachCum_pairwise_cum names.length (sortedFreqPairs names) 1 0
  refine h.imp_of_mem ?_
  intro a b ha hb hle
  have hta := attachCum_total_eq names.length (sortedFreqPairs names) 1 0 a ha
  have htb := attachCum_total_eq names.length (sortedFreqPairs names) 1 0 b hb
  unfold FreqEntry.cumulativeFraction
  rw [hta, htb]
  exact mkRat_nat_mono names.length hle

lemma filter_eq_takeWhile_of_pairwise {α : Type} {p : α → Bool} {r : α → α → Prop}
    (himp : ∀ a b, r a b → p b = true → p a = true) :
    ∀ {l : List α}, l.Pairwise r → l.filter p = l.takeWhile p := by
  intro l hl
  induction l with
  | nil => rfl
  | cons a l ih =>
      rcases List.pairwise_cons.mp hl with ⟨hall, hl'⟩
      by_cases hp : p a = true
      · simp [List.filter_cons, List.takeWhile_cons, hp, ih hl']
      · rw [Bool.not_eq_true] at hp
        have hnone : l.filter p = [] := by
          refine List.filter_eq_nil_iff.mpr ?_
          intro b hb hpb
          rw [himp a b (hall b hb) hpb] at hp
          cases hp
        simp [List.filter_cons, List.takeWhile_cons, hp, hnone]

lemma takeWhile_eq_take_length {α : Type} (p : α → Bool) :
    ∀ l : List α, l.takeWhile p = l.take (l.takeWhile p).length
  | [] => rfl
  | a :: l => by
      by_cases hp : p a = true
      · simpa [List.takeWhile_cons, hp] using takeWhile_eq_take_length p l
      · rw [Bool.not_eq_true] at hp
        simp [List.takeWhile_cons, hp]

lemma get_at_takeWhile_length {α : Type} (p : α → Bool) :
    ∀ (l : List α) (h : (l.takeWhile p).length < l.length),
      p (l.get ⟨(l.takeWhile p).length, h⟩) = false
  | [], h => absurd h (by simp)
  | a :: l, h => by
      by_cases hp : p a = true
      · have hlt : (l.takeWhile p).length < l.length := by
          simpa [List.takeWhile_cons, hp] using h
        have := get_at_takeWhile_length p l hlt
        simpa [List.takeWhile_cons, hp] using this
      · rw [Bool.not_eq_true] at hp
        simp [List.takeWhile_cons, hp]

lemma mkRat_four_five : mkRat 4 5 = (4 : ℚ) / 5 := by
  rw [Rat.mkRat_eq_div]
  norm_num

lemma coverageSet_eq_takeWhile (names : List String) :
    coverageSet names = (frequencyTable names).takeWhile coverPred := by
  refine filter_eq_takeWhile_of_pairwise ?_ (frequencyTable_pairwise_frac names)
  intro a b hr hb
  unfold coverPred at hb ⊢
  rw [decide_eq_true_eq] at hb
  rw [decide_eq_true_eq]
  exact le_trans hr hb

lemma freqPairs_map_fst (names : List String) :
    (freqPairs names).map Prod.fst = names.dedup := by
  simp [freqPairs, List.map_map, Function.comp_def]

lemma freqPairs_sum_snd (names : List String) :
    ((freqPairs names).map Prod.snd).sum = names.length := by
  have h := List.sum_map_count_dedup_eq_length names
  simpa [freqPairs, List.map_map, Function.comp_def] using h

lemma sortedFreqPairs_pairwise (names : List String) :
    (sortedFreqPairs names).Pairwise freqOrder :=
  List.sorted_insertionSort freqOrder (freqPairs names)

lemma sortedFreqPairs_perm (names : List String) :
    (sortedFreqPairs names).Perm (freqPairs names) :=
  List.perm_insertionSort freqOrder (freqPairs names)

lemma sortedFreqPairs_nodup_fst (names : List String) :
    ((sortedFreqPairs names).map Prod.fst).Nodup := by
  refine ((sortedFreqPairs_perm names).map Prod.fst).nodup_iff.mpr ?_
  rw [freqPairs_map_fst]
  exact List.nodup_dedup names

/-- Strict display order of the frequency table asserted by the spec:
count descending, ties broken by strictly ascending codepoint order of
the key. -/
def tableOrder (a b : FreqEntry) : Prop :=
  b.frequency < a.frequency ∨
    (a.frequency = b.frequency ∧ lexLt a.firstname.data b.firstname.data = true)

/-- A one-row dataset whose single name covers 100 percent of records. -/
def demoOne : List Record :=
  [⟨1, 1, some "alice", some 1, some 1, some 1990, true⟩]

/-- A five-row dataset: four rows named a (cumulative 4/5 = 0.8) and one
named b (cumulative 1). -/
def demoTwo : List Record :=
  [⟨1, 1, some "a", none, none, none, true⟩,
   ⟨2, 2, some "a", none, none, none, true⟩,
   ⟨3, 3, some "a", none, none, none, true⟩,
   ⟨4, 4, some "a", none, none, none, true⟩,
   ⟨5, 5, some "b", none, none, none, true⟩]

/-- Same name multiset as demoPermB but listed in another order. -/
def demoPermA : List Record :=
  [⟨1, 1, some "b", none, none, none, true⟩,
   ⟨2, 2, some "a", none, none, none, true⟩,
   ⟨3, 3, some "a", none, none, none, true⟩]

/-- Same name multiset as demoPermA but listed in another order. -/
def demoPermB : List Record :=
  [⟨1, 1, some "a", none, none, none, true⟩,
   ⟨2, 2, some "a", none, none, none, true⟩,
   ⟨3, 3, some "b", none, none, none, true⟩]

/-- Claim C1 counterexample: on a dataset whose most frequent name alone
exceeds 80 percent coverage (here 100 percent), the WHERE
cumulative_percentage <= 0.80 filter of create_common_names_table keeps
no row at all, so the produced CoverageSet is empty rather than
containing the single top-ranked entry. -/
theorem dominant_name_coverage_refuted :
    (exactFrequencyTable demoOne).head? = some ⟨"alice", 1, 1, 1, 1⟩ ∧
    (4 : ℚ) / 5 < FreqEntry.cumulativeFraction ⟨"alice", 1, 1, 1, 1⟩ ∧
    exactCoverageSet demoOne = [] := by
  refine ⟨by decide, ?_, by decide⟩
  rw [FreqEntry.cumulativeFraction, Rat.mkRat_eq_div]
  norm_num

/-- Claim C1 (amended): whenever the top-ranked entry of the frequency
table already has cumulative fraction above 0.80, the CoverageSet
produced by create_common_names_table is empty. -/
theorem coverage_empty_of_dominant_head (rs : List Record) (e : FreqEntry)
    (hhead : (exactFrequencyTable rs).head? = some e)
    (hfrac : (4 : ℚ) / 5 < e.cumulativeFraction) :
    exactCoverageSet rs = [] := by
  have hcov : exactCoverageSet rs = (exactFrequencyTable rs).takeWhile coverPred :=
    coverageSet_eq_takeWhile (eligibleNames rs)
  cases htb : exactFrequencyTable rs with
  | nil => rw [hcov, htb]; rfl
  | cons e' rest =>
      rw [htb] at hhead
      have he' : e' = e := by
        simpa using hhead
      subst he'
      have hp : coverPred e' = false := by
        unfold coverPred
        rw [decide_eq_false_iff_not, not_le, mkRat_four_five]
        exact hfrac
      rw [hcov, htb, List.takeWhile_cons, hp]
      simp

/-- Claim C1 witness: the amended theorem applied to the one-row dataset. -/
theorem coverage_empty_of_dominant_head_witness :
    exactCoverageSet demoOne = [] :=
  coverage_empty_of_dominant_head demoOne ⟨"alice", 1, 1, 1, 1⟩ (by decide)
    (by rw [FreqEntry.cumulativeFraction, Rat.mkRat_eq_div]; norm_num)

/-- Claim C2: every entry of the CoverageSet has cumulative fraction at
most 0.80; the CoverageSet is a prefix of the full frequency table; and
when it is a strict prefix, the first excluded entry (next by rank)
already has cumulative fraction above 0.80. -/
theorem coverage_bounded_and_maximal (rs : List Record) :
    (∀ e ∈ exactCoverageSet rs, e.cumulativeFraction ≤ (4 : ℚ) / 5) ∧
    exactCoverageSet rs = (exactFrequencyTable rs).take (exactCoverageSet rs).length ∧
    ∀ h : (exactCoverageSet rs).length < (exactFrequencyTable rs).length,
      (4 : ℚ) / 5 <
        ((exactFrequencyTable rs).get ⟨(exactCoverageSet rs).length, h⟩).cumulativeFraction := by
  have hcov : exactCoverageSet rs = (exactFrequencyTable rs).takeWhile coverPred :=
    coverageSet_eq_takeWhile (eligibleNames rs)
  refine ⟨?_, ?_, ?_⟩
  · intro e he
    have := (List.mem_filter.mp he).2
    unfold coverPred at this
    rw [decide_eq_true_eq, mkRat_four_five] at this
    exact this
  · conv_lhs => rw [hcov, takeWhile_eq_take_length coverPred (exactFrequencyTable rs)]
    rw [hcov]
  · intro h
    have h' : ((exactFrequencyTable rs).takeWhile coverPred).length <
        (exactFrequencyTable rs).length := by
      rw [← hcov]; exact h
    have hfalse := get_at_takeWhile_length coverPred (exactFrequencyTable rs) h'
    have hmem :
        (exactFrequencyTable rs).get ⟨(exactCoverageSet rs).length, h⟩ =
        (exactFrequencyTable rs).get
          ⟨((exactFrequencyTable rs).takeWhile coverPred).length, h'⟩ := by
      congr 1
      rw [Fin.mk_eq_mk]
      rw [hcov]
    have hlt : mkRat 4 5 <
        ((exactFrequencyTable rs).get
          ⟨((exactFrequencyTable rs).takeWhile coverPred).length, h'⟩).cumulativeFraction := by
      revert hfalse
      generalize (exactFrequencyTable rs).get
        ⟨((exactFrequencyTable rs).takeWhile coverPred).length, h'⟩ = x
      intro hx
      unfold coverPred at hx
      rw [decide_eq_false_iff_not, not_le] at hx
      exact hx
    rw [hmem, ← mkRat_four_five]
    exact hlt

/-- Claim C2 witness: on demoTwo the CoverageSet is the strict prefix
containing only the name a, whose fraction is exactly 0.8, and the next
entry by rank has fraction 1. -/
theorem coverage_bounded_and_maximal_witness :
    FreqEntry.cumulativeFraction ⟨"a", 4, 1, 4, 5⟩ ≤ (4 : ℚ) / 5 ∧
    exactCoverageSet demoTwo = (exactFrequencyTable demoTwo).take (exactCoverageSet demoTwo).length ∧
    (4 : ℚ) / 5 <
      ((exactFrequencyTable demoTwo).get
        ⟨(exactCoverageSet demoTwo).length, by decide⟩).cumulativeFraction :=
  ⟨(coverage_bounded_and_maximal demoTwo).1 _ (by decide),
   (coverage_bounded_and_maximal demoTwo).2.1,
   (coverage_bounded_and_maximal demoTwo).2.2 (by decide)⟩

/-- Claim C3: the frequency table is sorted by count descending with ties
broken by strictly ascending codepoint order of the key; rank is assigned
1..N in exactly that order; and the table is a deterministic function of
the multiset of (key, count) pairs. -/
theorem frequency_table_sorted_and_deterministic (rs : List Record) :
    (exactFrequencyTable rs).Pairwise tableOrder ∧
    (exactFrequencyTable rs).map FreqEntry.rank =
      List.range' 1 (exactFrequencyTable rs).length ∧
    ∀ rs₂ : List Record,
      (freqPairs (eligibleNames rs)).Perm (freqPairs (eligibleNames rs₂)) →
      exactFrequencyTable rs = exactFrequencyTable rs₂ := by
  refine ⟨?_, ?_, ?_⟩
  · have hpair : (exactFrequencyTable rs).map (fun e => (e.firstname, e.frequency)) =
        sortedFreqPairs (eligibleNames rs) :=
      attachCum_map_pair (eligibleNames rs).length (sortedFreqPairs (eligibleNames rs)) 1 0
    have h1 : List.Pairwise freqOrder
        ((exactFrequencyTable rs).map (fun e => (e.firstname, e.frequency))) := by
      rw [hpair]
      exact sortedFreqPairs_pairwise (eligibleNames rs)
    have hord := List.pairwise_map.mp h1
    have hmapname : (exactFrequencyTable rs).map FreqEntry.firstname =
        (sortedFreqPairs (eligibleNames rs)).map Prod.fst := by
      rw [← hpair, List.map_map]
      rfl
    have h2 : ((exactFrequencyTable rs).map FreqEntry.firstname).Nodup := by
      rw [hmapname]
      exact sortedFreqPairs_nodup_fst (eligibleNames rs)
    have hne := List.pairwise_map.mp h2
    refine (hord.and hne).imp ?_
    rintro a b ⟨hord', hne'⟩
    rcases hord' with hlt | ⟨hcnt, hname⟩
    · exact Or.inl hlt
    · rcases hname with hlex | heq
      · exact Or.inr ⟨hcnt, hlex⟩
      · exact absurd heq hne'
  · unfold exactFrequencyTable frequencyTable
    rw [attachCum_map_rank, attachCum_length]
  · intro rs₂ hperm
    have hlen : (eligibleNames rs).length = (eligibleNames rs₂).length := by
      rw [← freqPairs_sum_snd (eligibleNames rs), ← freqPairs_sum_snd (eligibleNames rs₂)]
      exact (hperm.map Prod.snd).sum_eq
    have hsorted : sortedFreqPairs (eligibleNames rs) = sortedFreqPairs (eligibleNames rs₂) := by
      refine List.eq_of_perm_of_sorted ?_ (sortedFreqPairs_pairwise _) (sortedFreqPairs_pairwise _)
      exact ((sortedFreqPairs_perm _).trans hperm).trans (sortedFreqPairs_perm _).symm
    unfold exactFrequencyTable frequencyTable
    rw [hlen, hsorted]

/-- Claim C3 witness: two record sets carrying the same multiset of
(key, count) pairs in different physical order produce equal tables. -/
theorem frequency_table_deterministic_witness :
    exactFrequencyTable demoPermA = exactFrequencyTable demoPermB :=
  (frequency_table_sorted_and_deterministic demoPermA).2.2 demoPermB (by decide)

/-- Key of the name+year duplicate category: defined only when firstname
IS NOT NULL AND firstname != '' AND birthyear IS NOT NULL.  The queries
group by the raw firstname (no LOWER/TRIM). -/
def keyNameYear (r : Record) : Option (String × Int) :=
  match r.firstname, r.birthyear with
  | some n, some y => if n = "" then none else some (n, y)
  | _, _ => none

/-- Key of the name+month duplicate category. -/
def keyNameMonth (r : Record) : Option (String × Int) :=
  match r.firstname, r.birthmonth with
  | some n, some m => if n = "" then none else some (n, m)
  | _, _ => none

/-- Key of the name+day duplicate category. -/
def keyNameDay (r : Record) : Option (String × Int) :=
  match r.firstname, r.birthday with
  | some n, some d => if n = "" then none else some (n, d)
  | _, _ => none

/-- Key of the year+month duplicate category (no name condition). -/
def keyYearMonth (r : Record) : Option (Int × Int) :=
  match r.birthyear, r.birthmonth with
  | some y, some m => some (y, m)
  | _, _ => none

/-- Key of the year+day duplicate category. -/
def keyYearDay (r : Record) : Option (Int × Int) :=
  match r.birthyear, r.birthday with
  | some y, some d => some (y, d)
  | _, _ => none

/-- Key of the month+day duplicate category. -/
def keyMonthDay (r : Record) : Option (Int × Int) :=
  match r.birthmonth, r.birthday with
  | some m, some d => some (m, d)
  | _, _ => none

/-- The SQL membership test (keyA, keyB) IN (SELECT ... GROUP BY ...
HAVING COUNT(*) > 1): the row has a defined key shared with at least one
other included row.  A row with a NULL key attribute never matches. -/
def dupFlag {κ : Type} [DecidableEq κ] (key : Record → Option κ)
    (pool : List Record) (r : Record) : Bool :=
  match key r with
  | none => false
  | some k => decide (1 < (pool.filter (fun x => key x = some k)).length)

/-- Included rows belonging to some duplicate group of one category
(what COUNT(*) FILTER counts for that category). -/
def dupMembers {κ : Type} [DecidableEq κ] (key : Record → Option κ)
    (rs : List Record) : List Record :=
  (includedRecords rs).filter (dupFlag key (includedRecords rs))

/-- The per-category duplicate record count of the analytics table. -/
def dupCount {κ : Type} [DecidableEq κ] (key : Record → Option κ)
    (rs : List Record) : Nat :=
  (dupMembers key rs).length

/-- The six-way OR of the COUNT(DISTINCT row_id) FILTER clause of
duplicate_analysis. -/
def anyDupFlag (pool : List Record) (r : Record) : Bool :=
  dupFlag keyNameYear pool r ||
    (dupFlag keyNameMonth pool r ||
      (dupFlag keyNameDay pool r ||
        (dupFlag keyYearMonth pool r ||
          (dupFlag keyYearDay pool r || dupFlag keyMonthDay pool r))))

/-- COUNT(DISTINCT row_id) FILTER (WHERE any of the six pair keys is in
its duplicate-key set): the total_duplicate_records column. -/
def totalDuplicateRecords (rs : List Record) : Nat :=
  (((includedRecords rs).filter (anyDupFlag (includedRecords rs))).map Record.rowId).dedup.length

/-- ORDER BY original_row_number used inside ARRAY_AGG. -/
def posLe (a b : Record) : Prop := a.pos ≤ b.pos

instance : DecidableRel posLe := fun a b => by
  unfold posLe
  infer_instance

/-- ORDER BY on the (firstname, value) group keys of the name-keyed
duplicate views. -/
def nameValLe (a b : String × Int) : Prop :=
  lexLt a.1.data b.1.data = true ∨ (a.1 = b.1 ∧ a.2 ≤ b.2)

instance : DecidableRel nameValLe := fun a b => by
  unfold nameValLe
  infer_instance

/-- ORDER BY on the (value, value) group keys of the date-keyed duplicate
views. -/
def intPairLe (a b : Int × Int) : Prop :=
  a.1 < b.1 ∨ (a.1 = b.1 ∧ a.2 ≤ b.2)

instance : DecidableRel intPairLe := fun a b => by
  unfold intPairLe
  infer_instance

/-- ORDER BY duplicate_count DESC, then the key values ascending, used on
the duplicate group tables. -/
def groupOrder {κ : Type} (keyLe : κ → κ → Prop) (a b : κ × List Record) : Prop :=
  b.2.length < a.2.length ∨ (a.2.length = b.2.length ∧ keyLe a.1 b.1)

instance {κ : Type} (keyLe : κ → κ → Prop) [DecidableRel keyLe] :
    DecidableRel (groupOrder keyLe) := fun a b => by
  unfold groupOrder
  infer_instance

/-- GROUP BY the pair key over included rows, with members aggregated in
original_row_number order, HAVING COUNT(*) > 1. -/
def groupRows {κ : Type} [DecidableEq κ] (key : Record → Option κ)
    (rs : List Record) : List (κ × List Record) :=
  (((includedRecords rs).filterMap key).dedup.map
      (fun k => (k, List.insertionSort posLe
        ((includedRecords rs).filter (fun r => key r = some k))))).filter
    (fun g => decide (1 < g.2.length))

/-- One duplicate-groups table of create_duplicate_groups_view: the
retained groups ordered by duplicate_count DESC then key ascending. -/
def dupGroups {κ : Type} [DecidableEq κ] (key : Record → Option κ)
    (keyLe : κ → κ → Prop) [DecidableRel keyLe] (rs : List Record) :
    List (κ × List Record) :=
  List.insertionSort (groupOrder keyLe) (groupRows key rs)

/-- The four Scenario-B records (day, month, year given in that order in
the spec). -/
def rec1 : Record := ⟨1, 1, some "ALICE", some 1, some 1, some 1990, true⟩

/-- Scenario-B record 2. -/
def rec2 : Record := ⟨2, 2, some "alice", some 2, some 1, some 1990, true⟩

/-- Scenario-B record 3. -/
def rec3 : Record := ⟨3, 3, some "BOB", some 3, some 2, some 1991, true⟩

/-- Scenario-B record 4. -/
def rec4 : Record := ⟨4, 4, some "ALICE", some 4, some 1, some 1992, true⟩

/-- The Scenario-B record set. -/
def scenarioB : List Record := [rec1, rec2, rec3, rec4]

/-- Claim C4 counterexample: the duplicate detector groups by the raw
firstname (Exact mode), so on the Scenario-B records the only name+month
group is (ALICE, 1) with members 1 and 4 (record 2, spelled alice, is not
in it), and there is no name+year duplicate group at all — contradicting
the claimed Normalized-mode groups of sizes 3 and 2. -/
theorem scenarioB_normalized_groups_refuted :
    (dupGroups keyNameMonth nameValLe scenarioB).map (fun g => (g.1, g.2.map Record.pos)) =
      [(("ALICE", 1), [1, 4])] ∧
    dupGroups keyNameYear nameValLe scenarioB = [] ∧
    totalDuplicateRecords scenarioB = 3 := by
  refine ⟨by decide, by decide, by decide⟩

/-- Claim C4 (amended): with the Exact-mode name grouping the code
performs, Scenario B yields the name+month group (ALICE, 1) = records
1 and 4, no name+year group, the year+month group (1990, 1) = records
1 and 2, and the duplicate-implicated records are 1, 2 and 4, so the
union count is still 3. -/
theorem scenarioB_exact_mode_groups :
    (dupGroups keyNameMonth nameValLe scenarioB).map (fun g => (g.1, g.2.map Record.pos)) =
      [(("ALICE", 1), [1, 4])] ∧
    dupGroups keyNameYear nameValLe scenarioB = [] ∧
    (dupGroups keyYearMonth intPairLe scenarioB).map (fun g => (g.1, g.2.map Record.pos)) =
      [((1990, 1), [1, 2])] ∧
    ((includedRecords scenarioB).filter (anyDupFlag (includedRecords scenarioB))).map Record.pos =
      [1, 2, 4] ∧
    totalDuplicateRecords scenarioB = 3 := by
  refine ⟨by decide, by decide, by decide, by decide, by decide⟩

lemma filter_or_toFinset_union {α β : Type} [DecidableEq β] (l : List α)
    (p q : α → Bool) (f : α → β) :
    ((l.filter (fun x => p x || q x)).map f).toFinset =
      ((l.filter p).map f).toFinset ∪ ((l.filter q).map f).toFinset := by
  ext x
  simp only [List.mem_toFinset, List.mem_map, List.mem_filter, Bool.or_eq_true,
    Finset.mem_union]
  constructor
  · rintro ⟨a, ⟨ha, hpq⟩, hfa⟩
    rcases hpq with hp | hq
    · exact Or.inl ⟨a, ⟨ha, hp⟩, hfa⟩
    · exact Or.inr ⟨a, ⟨ha, hq⟩, hfa⟩
  · rintro (⟨a, ⟨ha, hp⟩, hfa⟩ | ⟨a, ⟨ha, hq⟩, hfa⟩)
    · exact ⟨a, ⟨ha, Or.inl hp⟩, hfa⟩
    · exact ⟨a, ⟨ha, Or.inr hq⟩, hfa⟩

lemma length_filter_or {α : Type} (p q : α → Bool) (l : List α) :
    (l.filter (fun x => p x || q x)).length ≤
      (l.filter p).length + (l.filter q).length := by
  induction l with
  | nil => simp
  | cons a l ih =>
      cases hp : p a <;> cases hq : q a <;>
        simp [List.filter_cons, hp, hq] <;> omega

/-- Claim C5: the reported union count equals the cardinality of the set
union, by row identity, of the members of the six categories' duplicate
groups, hence it never exceeds the sum of the six per-category counts nor
the total included record count. -/
theorem union_count_correct (rs : List Record) :
    totalDuplicateRecords rs =
      (((dupMembers keyNameYear rs).map Record.rowId).toFinset ∪
        (((dupMembers keyNameMonth rs).map Record.rowId).toFinset ∪
          (((dupMembers keyNameDay rs).map Record.rowId).toFinset ∪
            (((dupMembers keyYearMonth rs).map Record.rowId).toFinset ∪
              (((dupMembers keyYearDay rs).map Record.rowId).toFinset ∪
                ((dupMembers keyMonthDay rs).map Record.rowId).toFinset))))).card ∧
    totalDuplicateRecords rs ≤
      dupCount keyNameYear rs + dupCount keyNameMonth rs + dupCount keyNameDay rs +
        dupCount keyYearMonth rs + dupCount keyYearDay rs + dupCount keyMonthDay rs ∧
    totalDuplicateRecords rs ≤ (includedRecords rs).length := by
  refine ⟨?_, ?_, ?_⟩
  · unfold totalDuplicateRecords
    rw [← List.card_toFinset]
    refine congrArg Finset.card ?_
    unfold anyDupFlag dupMembers
    rw [filter_or_toFinset_union, filter_or_toFinset_union, filter_or_toFinset_union,
      filter_or_toFinset_union, filter_or_toFinset_union]
  · unfold totalDuplicateRecords
    have h1 := (List.dedup_sublist
      (((includedRecords rs).filter (anyDupFlag (includedRecords rs))).map Record.rowId)).length_le
    rw [List.length_map] at h1
    refine le_trans h1 ?_
    unfold anyDupFlag dupCount dupMembers
    have h2 := length_filter_or (dupFlag keyNameYear (includedRecords rs))
      (fun r => dupFlag keyNameMonth (includedRecords rs) r ||
        (dupFlag keyNameDay (includedRecords rs) r ||
          (dupFlag keyYearMonth (includedRecords rs) r ||
            (dupFlag keyYearDay (includedRecords rs) r ||
              dupFlag keyMonthDay (includedRecords rs) r)))) (includedRecords rs)
    have h3 := length_filter_or (dupFlag keyNameMonth (includedRecords rs))
      (fun r => dupFlag keyNameDay (includedRecords rs) r ||
        (dupFlag keyYearMonth (includedRecords rs) r ||
          (dupFlag keyYearDay (includedRecords rs) r ||
            dupFlag keyMonthDay (includedRecords rs) r))) (includedRecords rs)
    have h4 := length_filter_or (dupFlag keyNameDay (includedRecords rs))
      (fun r => dupFlag keyYearMonth (includedRecords rs) r ||
        (dupFlag keyYearDay (includedRecords rs) r ||
          dupFlag keyMonthDay (includedRecords rs) r)) (includedRecords rs)
    have h5 := length_filter_or (dupFlag keyYearMonth (includedRecords rs))
      (fun r => dupFlag keyYearDay (includedRecords rs) r ||
        dupFlag keyMonthDay (includedRecords rs) r) (includedRecords rs)
    have h6 := length_filter_or (dupFlag keyYearDay (includedRecords rs))
      (dupFlag keyMonthDay (includedRecords rs)) (includedRecords rs)
    omega
  · unfold totalDuplicateRecords
    have h1 := (List.dedup_sublist
      (((includedRecords rs).filter (anyDupFlag (includedRecords rs))).map Record.rowId)).length_le
    rw [List.length_map] at h1
    exact le_trans h1 (List.length_filter_le _ _)

/-- LOWER(TRIM(firstname)) applied to every eligible row of a period (the
grouping key of every comparison.py query). -/
def normNames (rs : List Record) : List String :=
  (eligibleNames rs).map normalizeName

/-- SELECT DISTINCT LOWER(TRIM(firstname)) over eligible rows (the
jan_included / apr_included CTEs and the temp distinct-name tables). -/
def distinctNormNames (rs : List Record) : List String :=
  (normNames rs).dedup

/-- The temp_common_names table: normalized names present in both
periods. -/
def commonNames (A B : List Record) : List String :=
  (distinctNormNames A).filter (fun n => decide (n ∈ distinctNormNames B))

/-- Normalized names of the first period absent from the second (the
temp_unique_jan_names / temp_unique_apr_names tables). -/
def uniqueNormNames (A B : List Record) : List String :=
  (distinctNormNames A).filter (fun n => decide (n ∉ distinctNormNames B))

/-- The temp frequency table: GROUP BY LOWER(TRIM(firstname)) with
COUNT(*) over eligible rows. -/
def freqMapNorm (rs : List Record) : List (String × Nat) :=
  (normNames rs).dedup.map (fun s => (s, (normNames rs).count s))

/-- LEFT JOIN of a grouped frequency table on the normalized name. -/
def lookupFreq (m : List (String × Nat)) (n : String) : Option Nat :=
  (m.find? (fun p => p.1 == n)).map Prod.snd

/-- LEFT JOIN of the temp top-80 table on the normalized name: the rows
of the Exact-mode _common_names table with LOWER(TRIM(firstname)) applied
to their keys, yielding the stored rank when a row matches. -/
def top80RankLookup (rs : List Record) (n : String) : Option Nat :=
  ((exactCoverageSet rs).find? (fun e => normalizeName e.firstname == n)).map FreqEntry.rank

/-- One row of the _comparison_common_names table. -/
structure ComparisonEntry where
  firstname : String
  janFrequency : Nat
  aprFrequency : Nat
  totalFrequency : Nat
  inJanTop80 : Bool
  inAprTop80 : Bool
  janRank : Option Nat
  aprRank : Option Nat
deriving Repr, DecidableEq

/-- Build the comparison row of one common name: COALESCE(freq, 0) for
both frequencies, their sum, and top-80 flag/rank from each period's
joined top-80 table (flag true iff the rank column is non-NULL). -/
def mkComparisonEntry (A B : List Record) (n : String) : ComparisonEntry :=
  let jf := (lookupFreq (freqMapNorm A) n).getD 0
  let af := (lookupFreq (freqMapNorm B) n).getD 0
  let jr := top80RankLookup A n
  let ar := top80RankLookup B n
  ⟨n, jf, af, jf + af, jr.isSome, ar.isSome, jr, ar⟩

/-- ORDER BY total_frequency DESC, firstname of the final comparison
table. -/
def entryOrder (a b : ComparisonEntry) : Prop :=
  b.totalFrequency < a.totalFrequency ∨
    (a.totalFrequency = b.totalFrequency ∧
      (lexLt a.firstname.data b.firstname.data = true ∨ a.firstname = b.firstname))

instance : DecidableRel entryOrder := fun a b => by
  unfold entryOrder
  infer_instance

/-- The rows of the _comparison_common_names table. -/
def comparisonEntries (A B : List Record) : List ComparisonEntry :=
  List.insertionSort entryOrder ((commonNames A B).map (mkComparisonEntry A B))

/-- Normalized name of one row (its firstname is always present on the
eligible rows these tables select). -/
def recNormName (r : Record) : String :=
  match r.firstname with
  | some s => normalizeName s
  | none => ""

/-- One row of a _comparison_unique_jan / _comparison_unique_apr table:
the record's fields, its normalized name, and the top-80 flag and rank
joined from that period's own _common_names table. -/
structure UniqueRow where
  record : Record
  firstnameNormalized : String
  inTop80 : Bool
  rank : Option Nat
deriving Repr, DecidableEq

/-- ORDER BY original_row_number on unique-period rows. -/
def rowPosLe (a b : UniqueRow) : Prop := a.record.pos ≤ b.record.pos

instance : DecidableRel rowPosLe := fun a b => by
  unfold rowPosLe
  infer_instance

/-- The _comparison_unique_jan table (and, with arguments swapped, the
_comparison_unique_apr table): every eligible row of the first period
whose normalized name does not occur in the second period, ordered by
original_row_number. -/
def uniqueRows (A B : List Record) : List UniqueRow :=
  List.insertionSort rowPosLe
    (((eligibleRecords A).filter (fun r => decide (recNormName r ∈ uniqueNormNames A B))).map
      (fun r => ⟨r, recNormName r, (top80RankLookup A (recNormName r)).isSome,
        top80RankLookup A (recNormName r)⟩))

/-- ROUND(x, 2) on a numeric value. -/
def round2 (q : ℚ) : ℚ := ((round (q * 100) : ℤ) : ℚ) / 100

/-- ROUND(num::numeric / NULLIF(den, 0) * 100, 2): NULL (none) exactly
when the denominator is zero, otherwise the rounded percentage. -/
def pctOf (num den : Nat) : Option ℚ :=
  if den = 0 then none else some (round2 ((num : ℚ) / (den : ℚ) * 100))

/-- SELECT DISTINCT LOWER(TRIM(firstname)) over a period's Exact-mode
_common_names table (the jan_top80 / apr_top80 CTEs). -/
def top80NormNames (rs : List Record) : List String :=
  ((exactCoverageSet rs).map (fun e => normalizeName e.firstname)).dedup

/-- The single row of the _comparison_summary table. -/
structure ComparisonSummary where
  janTotalRecords : Nat
  janUniqueNames : Nat
  janTop80Count : Nat
  aprTotalRecords : Nat
  aprUniqueNames : Nat
  aprTop80Count : Nat
  commonNamesCount : Nat
  uniqueJanNamesCount : Nat
  uniqueAprNamesCount : Nat
  janTop80InAprCount : Nat
  aprTop80InJanCount : Nat
  bothTop80Count : Nat
  commonNamesPctOfJan : Option ℚ
  commonNamesPctOfApr : Option ℚ
  janTop80InAprPct : Option ℚ
  aprTop80InJanPct : Option ℚ
deriving Repr, DecidableEq

/-- The _create_comparison_summary_table query. -/
def comparisonSummary (A B : List Record) : ComparisonSummary :=
  { janTotalRecords := (eligibleNames A).length
    janUniqueNames := (distinctNormNames A).length
    janTop80Count := (top80NormNames A).length
    aprTotalRecords := (eligibleNames B).length
    aprUniqueNames := (distinctNormNames B).length
    aprTop80Count := (top80NormNames B).length
    commonNamesCount := (commonNames A B).length
    uniqueJanNamesCount := (uniqueNormNames A B).length
    uniqueAprNamesCount := (uniqueNormNames B A).length
    janTop80InAprCount :=
      ((top80NormNames A).filter (fun n => decide (n ∈ distinctNormNames B))).length
    aprTop80InJanCount :=
      ((top80NormNames B).filter (fun n => decide (n ∈ distinctNormNames A))).length
    bothTop80Count :=
      ((top80NormNames A).filter (fun n => decide (n ∈ top80NormNames B))).length
    commonNamesPctOfJan := pctOf (commonNames A B).length (distinctNormNames A).length
    commonNamesPctOfApr := pctOf (commonNames A B).length (distinctNormNames B).length
    janTop80InAprPct :=
      pctOf ((top80NormNames A).filter (fun n => decide (n ∈ distinctNormNames B))).length
        (top80NormNames A).length
    aprTop80InJanPct :=
      pctOf ((top80NormNames B).filter (fun n => decide (n ∈ distinctNormNames A))).length
        (top80NormNames B).length }

lemma mem_frequencyTable_firstname (names : List String) :
    ∀ e ∈ frequencyTable names, e.firstname ∈ names := by
  intro e he
  have hpair : (e.firstname, e.frequency) ∈ sortedFreqPairs names := by
    rw [← attachCum_map_pair names.length (sortedFreqPairs names) 1 0]
    exact List.mem_map_of_mem _ he
  have hfp : (e.firstname, e.frequency) ∈ freqPairs names :=
    (sortedFreqPairs_perm names).subset hpair
  rcases List.mem_map.mp hfp with ⟨s, hs, heq⟩
  have : e.firstname = s := (congrArg Prod.fst heq).symm
  rw [this]
  exact List.mem_dedup.mp hs

lemma find?_congr_mem {α : Type} (p q : α → Bool) :
    ∀ l : List α, (∀ a ∈ l, p a = q a) → l.find? p = l.find? q
  | [], _ => rfl
  | a :: l, h => by
      have ha := h a (List.mem_cons_self a l)
      cases hpa : p a with
      | true =>
          rw [List.find?_cons_of_pos _ hpa, List.find?_cons_of_pos _ (ha ▸ hpa)]
      | false =>
          rw [List.find?_cons_of_neg _ (by rw [hpa]; exact Bool.false_ne_true),
            List.find?_cons_of_neg _ (by rw [← ha, hpa]; exact Bool.false_ne_true)]
          exact find?_congr_mem p q l (fun b hb => h b (List.mem_cons_of_mem a hb))

/-- Normalized-mode CoverageSet of a period, as the spec's words for the
Cross-Period Comparator require (a coverage set recomputed over the
trimmed, case-folded names); used only to compare the code's behaviour
against the spec for claim C6. -/
def specNormalizedCoverageSet (rs : List Record) : List FreqEntry :=
  coverageSet (normNames rs)

/-- Rank lookup against the Normalized-mode CoverageSet, as the spec's
words describe the comparator's inTop80/rank lookup. -/
def specTop80RankLookup (rs : List Record) (n : String) : Option Nat :=
  ((specNormalizedCoverageSet rs).find? (fun e => e.firstname == n)).map FreqEntry.rank

/-- A period holding the names ALICE, alice, alice: its Exact-mode
coverage set is the single entry alice (2 of 3 rows), while its
Normalized-mode coverage set is empty (alice covers 100 percent). -/
def demoMixed : List Record :=
  [⟨1, 1, some "ALICE", none, none, none, true⟩,
   ⟨2, 2, some "alice", none, none, none, true⟩,
   ⟨3, 3, some "alice", none, none, none, true⟩]

/-- Claim C6 counterexample: the comparator's top-80 lookup answers rank
1 for alice because it normalizes the names of the Exact-mode coverage
set after the fact, while the Normalized-mode coverage set of the same
period is empty; so the flags are not computed from Normalized-mode
CoverageSets, and Exact-mode aggregation is mixed into the normalized
lookup. -/
theorem comparator_top80_normalized_refuted :
    exactCoverageSet demoMixed = [⟨"alice", 2, 1, 2, 3⟩] ∧
    top80RankLookup demoMixed "alice" = some 1 ∧
    specNormalizedCoverageSet demoMixed = [] ∧
    specTop80RankLookup demoMixed "alice" = none ∧
    (comparisonEntries demoMixed demoMixed).map (fun e => (e.firstname, e.inJanTop80)) =
      [("alice", true)] := by
  refine ⟨by decide, by decide, by decide, by decide, by decide⟩

/-- Claim C6 (amended): the comparator computes inTop80/rank by
normalizing the names of each period's Exact-mode CoverageSet inside the
join, so the two normalization modes are mixed; when every eligible name
of the period is already trimmed and lower-case, this lookup agrees with
the Normalized-mode CoverageSet lookup the spec requires. -/
theorem comparator_top80_exact_mode (rs : List Record) (n : String)
    (h : ∀ s ∈ eligibleNames rs, normalizeName s = s) :
    top80RankLookup rs n = specTop80RankLookup rs n := by
  have hnames : normNames rs = eligibleNames rs := by
    unfold normNames
    exact (List.map_congr_left h).trans (List.map_id _)
  unfold top80RankLookup specTop80RankLookup specNormalizedCoverageSet exactCoverageSet
  rw [hnames]
  refine congrArg (Option.map FreqEntry.rank) ?_
  refine find?_congr_mem _ _ _ ?_
  intro e he
  have hmem : e.firstname ∈ eligibleNames rs :=
    mem_frequencyTable_firstname (eligibleNames rs) e (List.mem_of_mem_filter he)
  rw [h e.firstname hmem]

/-- Claim C6 witness: on a period whose names are already normalized the
two lookups agree. -/
theorem comparator_top80_exact_mode_witness :
    top80RankLookup demoTwo "a" = specTop80RankLookup demoTwo "a" :=
  comparator_top80_exact_mode demoTwo "a" (by decide)

lemma pctOf_eq_none_iff (num den : Nat) : pctOf num den = none ↔ den = 0 := by
  unfold pctOf
  split <;> simp_all

/-- Claim C7: each percentage field of the comparison summary is NULL
exactly when its denominator is zero, so the computation never divides by
zero for any pair of record sets. -/
theorem summary_pct_null_iff (A B : List Record) :
    ((comparisonSummary A B).commonNamesPctOfJan = none ↔
      (comparisonSummary A B).janUniqueNames = 0) ∧
    ((comparisonSummary A B).commonNamesPctOfApr = none ↔
      (comparisonSummary A B).aprUniqueNames = 0) ∧
    ((comparisonSummary A B).janTop80InAprPct = none ↔
      (comparisonSummary A B).janTop80Count = 0) ∧
    ((comparisonSummary A B).aprTop80InJanPct = none ↔
      (comparisonSummary A B).aprTop80Count = 0) := by
  refine ⟨?_, ?_, ?_, ?_⟩ <;>
    simp only [comparisonSummary] <;>
    exact pctOf_eq_none_iff _ _

lemma filter_mem_toFinset (l₁ l₂ : List String) :
    (l₁.filter (fun n => decide (n ∈ l₂))).toFinset = l₁.toFinset ∩ l₂.toFinset := by
  ext x
  simp [List.mem_filter]

lemma length_filter_mem_comm (l₁ l₂ : List String) (h₁ : l₁.Nodup) (h₂ : l₂.Nodup) :
    (l₁.filter (fun n => decide (n ∈ l₂))).length =
      (l₂.filter (fun n => decide (n ∈ l₁))).length := by
  have e₁ : (l₁.filter (fun n => decide (n ∈ l₂))).length =
      (l₁.toFinset ∩ l₂.toFinset).card := by
    rw [← filter_mem_toFinset, List.card_toFinset, List.Nodup.dedup (h₁.filter _)]
  have e₂ : (l₂.filter (fun n => decide (n ∈ l₁))).length =
      (l₂.toFinset ∩ l₁.toFinset).card := by
    rw [← filter_mem_toFinset, List.card_toFinset, List.Nodup.dedup (h₂.filter _)]
  rw [e₁, e₂, Finset.inter_comm]

lemma length_filter_add_not {α : Type} (p : α → Bool) (l : List α) :
    (l.filter p).length + (l.filter (fun a => !(p a))).length = l.length := by
  induction l with
  | nil => rfl
  | cons a l ih =>
      cases hp : p a <;> simp [List.filter_cons, hp] <;> omega

/-- Claim C9: common-name count plus unique-to-A distinct-name count
equals period A's unique-name count, symmetrically for B; and a period
compared with an identical copy of itself has empty unique-name tables on
both sides and common-name count equal to each period's unique-name
count. -/
theorem comparison_partition (A B : List Record) :
    (comparisonSummary A B).commonNamesCount + (comparisonSummary A B).uniqueJanNamesCount =
      (comparisonSummary A B).janUniqueNames ∧
    (comparisonSummary A B).commonNamesCount + (comparisonSummary A B).uniqueAprNamesCount =
      (comparisonSummary A B).aprUniqueNames ∧
    (A = B →
      uniqueRows A B = [] ∧ uniqueRows B A = [] ∧
      (comparisonSummary A B).commonNamesCount = (comparisonSummary A B).janUniqueNames ∧
      (comparisonSummary A B).commonNamesCount = (comparisonSummary A B).aprUniqueNames) := by
  have hfunB : (fun n => decide (n ∉ distinctNormNames B)) =
      (fun n => !(decide (n ∈ distinctNormNames B))) :=
    funext (fun n => decide_not)
  have hfunA : (fun n => decide (n ∉ distinctNormNames A)) =
      (fun n => !(decide (n ∈ distinctNormNames A))) :=
    funext (fun n => decide_not)
  have hpartAB : (commonNames A B).length + (uniqueNormNames A B).length =
      (distinctNormNames A).length := by
    unfold commonNames uniqueNormNames
    rw [hfunB]
    exact length_filter_add_not _ _
  have hpartBA : (commonNames B A).length + (uniqueNormNames B A).length =
      (distinctNormNames B).length := by
    unfold commonNames uniqueNormNames
    rw [hfunA]
    exact length_filter_add_not _ _
  have hcomm : (commonNames A B).length = (commonNames B A).length := by
    unfold commonNames
    exact length_filter_mem_comm (distinctNormNames A) (distinctNormNames B)
      (List.nodup_dedup _) (List.nodup_dedup _)
  refine ⟨?_, ?_, ?_⟩
  · simp only [comparisonSummary]
    exact hpartAB
  · simp only [comparisonSummary]
    rw [hcomm]
    exact hpartBA
  · intro hAB
    subst hAB
    have hU : uniqueNormNames A A = [] := by
      refine List.filter_eq_nil_iff.mpr ?_
      intro n hn
      simp [hn]
    have hurows : uniqueRows A A = [] := by
      unfold uniqueRows
      have hfilter : (eligibleRecords A).filter
          (fun r => decide (recNormName r ∈ uniqueNormNames A A)) = [] := by
        refine List.filter_eq_nil_iff.mpr ?_
        intro r _
        simp [hU]
      rw [hfilter]
      rfl
    have hC : commonNames A A = distinctNormNames A := by
      refine List.filter_eq_self.mpr ?_
      intro n hn
      simp [hn]
    refine ⟨hurows, hurows, ?_, ?_⟩ <;>
      simp only [comparisonSummary] <;>
      rw [hC]

/-- Claim C9 witness: comparing demoTwo with itself. -/
theorem comparison_partition_witness :
    uniqueRows demoTwo demoTwo = [] ∧
    (comparisonSummary demoTwo demoTwo).commonNamesCount =
      (comparisonSummary demoTwo demoTwo).janUniqueNames :=
  ⟨((comparison_partition demoTwo demoTwo).2.2 rfl).1,
   ((comparison_partition demoTwo demoTwo).2.2 rfl).2.2.1⟩

lemma find?_pair_map (g : String → Nat) (n : String) :
    ∀ l : List String, n ∈ l →
      (l.map (fun s => (s, g s))).find? (fun p => p.1 == n) = some (n, g n)
  | [], h => absurd h (List.not_mem_nil n)
  | a :: l, h => by
      by_cases ha : a = n
      · subst ha
        rw [List.map_cons, List.find?_cons_of_pos]
        simp
      · have h' : n ∈ l := by
          rcases List.mem_cons.mp h with h' | h'
          · exact absurd h'.symm ha
          · exact h'
        rw [List.map_cons, List.find?_cons_of_neg]
        · exact find?_pair_map g n l h'
        · simp [ha]

lemma lookupFreq_freqMapNorm (rs : List Record) (n : String) (h : n ∈ normNames rs) :
    lookupFreq (freqMapNorm rs) n = some ((normNames rs).count n) := by
  unfold lookupFreq freqMapNorm
  rw [find?_pair_map (fun s => (normNames rs).count s) n ((normNames rs).dedup)
    (List.mem_dedup.mpr h)]
  rfl

/-- Claim C10: every row of the comparison common-names table carries the
actual (positive) frequency of its name in each period: the COALESCE
zero fallback of the query is unreachable, both frequencies are at least
1 and the total is at least 2. -/
theorem comparison_entry_freqs_pos (A B : List Record) (e : ComparisonEntry)
    (he : e ∈ comparisonEntries A B) :
    lookupFreq (freqMapNorm A) e.firstname = some e.janFrequency ∧
    lookupFreq (freqMapNorm B) e.firstname = some e.aprFrequency ∧
    1 ≤ e.janFrequency ∧ 1 ≤ e.aprFrequency ∧ 2 ≤ e.totalFrequency := by
  have he' : e ∈ (commonNames A B).map (mkComparisonEntry A B) :=
    (List.perm_insertionSort entryOrder _).subset he
  rcases List.mem_map.mp he' with ⟨n, hn, heq⟩
  subst heq
  have hnA : n ∈ distinctNormNames A := List.mem_of_mem_filter hn
  have hnB : n ∈ distinctNormNames B := by
    have := (List.mem_filter.mp hn).2
    simpa using this
  have hA : n ∈ normNames A := List.mem_dedup.mp hnA
  have hB : n ∈ normNames B := List.mem_dedup.mp hnB
  have hcA : 1 ≤ (normNames A).count n := List.count_pos_iff.mpr hA
  have hcB : 1 ≤ (normNames B).count n := List.count_pos_iff.mpr hB
  have lA := lookupFreq_freqMapNorm A n hA
  have lB := lookupFreq_freqMapNorm B n hB
  refine ⟨?_, ?_, ?_, ?_, ?_⟩ <;>
    simp only [mkComparisonEntry, lA, lB, Option.getD_some] <;>
    omega

/-- A one-record period named alice, for the claim C10 witness. -/
def demoCmpA : List Record :=
  [⟨1, 1, some "alice", none, none, none, true⟩]

/-- A two-record period named alice and bob, for the claim C10 witness. -/
def demoCmpB : List Record :=
  [⟨1, 1, some "alice", none, none, none, true⟩,
   ⟨2, 2, some "bob", none, none, none, true⟩]

/-- Claim C10 witness: the single common-name row of demoCmpA vs demoCmpB
has both frequencies at least 1 and total at least 2. -/
theorem comparison_entry_freqs_pos_witness :
    1 ≤ (⟨"alice", 1, 1, 2, false, true, none, some 1⟩ : ComparisonEntry).janFrequency ∧
    2 ≤ (⟨"alice", 1, 1, 2, false, true, none, some 1⟩ : ComparisonEntry).totalFrequency :=
  ⟨(comparison_entry_freqs_pos demoCmpA demoCmpB _ (by decide)).2.2.1,
   (comparison_entry_freqs_pos demoCmpA demoCmpB _ (by decide)).2.2.2.2⟩

/-- Python's table_name.lower().replace(' ', '_').replace('-', '_'). -/
def safeName (s : String) : String :=
  ⟨(lowerStr s).data.map (fun c => if c = ' ' ∨ c = '-' then '_' else c)⟩

/-- The durable store as the comparator sees it: which tables exist. -/
structure Database where
  tables : List String
deriving Repr, DecidableEq

/-- ComparisonAnalytics._verify_tables_exist: checks each required table
in order and raises ValueError at the first missing one. -/
def verifyTablesExist (db : Database) : List String → Except String Unit
  | [] => Except.ok ()
  | t :: rest =>
      if t ∈ db.tables then verifyTablesExist db rest
      else Except.error ("Required table not found: " ++ t)

/-- The four comparison tables create_comparison_analytics creates after
verification succeeds. -/
def comparisonTableNames (safeTable : String) : List String :=
  [safeTable ++ "_comparison_common_names",
   safeTable ++ "_comparison_unique_jan",
   safeTable ++ "_comparison_unique_apr",
   safeTable ++ "_comparison_summary"]

/-- ComparisonAnalytics.create_comparison_analytics: verify that the two
original tables and the two precomputed _common_names coverage tables
exist, then (and only then) create the four comparison tables; a failed
verification propagates the error before any comparison table is
touched. -/
def createComparisonAnalytics (db : Database) (tableName janId aprId : String) :
    Except String Database :=
  match verifyTablesExist db
      [safeName tableName ++ "_" ++ janId ++ "_original",
       safeName tableName ++ "_" ++ janId ++ "_common_names",
       safeName tableName ++ "_" ++ aprId ++ "_original",
       safeName tableName ++ "_" ++ aprId ++ "_common_names"] with
  | Except.error e => Except.error e
  | Except.ok _ => Except.ok ⟨db.tables ++ comparisonTableNames (safeName tableName)⟩

lemma verifyTablesExist_error (db : Database) (t : String) :
    ∀ names : List String, t ∈ names → t ∉ db.tables →
      ∃ msg, verifyTablesExist db names = Except.error msg
  | [], h, _ => absurd h (List.not_mem_nil t)
  | a :: rest, h, hnot => by
      unfold verifyTablesExist
      by_cases ha : a ∈ db.tables
      · rw [if_pos ha]
        rcases List.mem_cons.mp h with h' | h'
        · subst h'
          exact absurd ha hnot
        · exact verifyTablesExist_error db t rest h' hnot
      · rw [if_neg ha]
        exact ⟨_, rfl⟩

/-- Claim C8: requesting a cross-period comparison while either period's
precomputed coverage table (_common_names) does not exist fails with an
error surfaced to the caller; no comparison output database state is
produced and the missing input is not treated as empty data. -/
theorem comparison_missing_coverage_errors (db : Database) (tableName janId aprId : String)
    (hmissing :
      safeName tableName ++ "_" ++ janId ++ "_common_names" ∉ db.tables ∨
      safeName tableName ++ "_" ++ aprId ++ "_common_names" ∉ db.tables) :
    ∃ msg, createComparisonAnalytics db tableName janId aprId = Except.error msg := by
  unfold createComparisonAnalytics
  rcases hmissing with h | h
  · rcases verifyTablesExist_error db (safeName tableName ++ "_" ++ janId ++ "_common_names")
      [safeName tableName ++ "_" ++ janId ++ "_original",
       safeName tableName ++ "_" ++ janId ++ "_common_names",
       safeName tableName ++ "_" ++ aprId ++ "_original",
       safeName tableName ++ "_" ++ aprId ++ "_common_names"]
      (by simp) h with ⟨msg, hv⟩
    rw [hv]
    exact ⟨msg, rfl⟩
  · rcases verifyTablesExist_error db (safeName tableName ++ "_" ++ aprId ++ "_common_names")
      [safeName tableName ++ "_" ++ janId ++ "_original",
       safeName tableName ++ "_" ++ janId ++ "_common_names",
       safeName tableName ++ "_" ++ aprId ++ "_original",
       safeName tableName ++ "_" ++ aprId ++ "_common_names"]
      (by simp) h with ⟨msg, hv⟩
    rw [hv]
    exact ⟨msg, rfl⟩

/-- A store holding both original tables but neither coverage table. -/
def demoDb : Database :=
  ⟨["birth_data_jan_original", "birth_data_apr_original"]⟩

/-- Claim C8 witness: with both coverage tables missing the operation
returns an error. -/
theorem comparison_missing_coverage_errors_witness :
    ∃ msg, createComparisonAnalytics demoDb "Birth Data" "jan" "apr" = Except.error msg :=
  comparison_missing_coverage_errors demoDb "Birth Data" "jan" "apr" (Or.inl (by decide))

end DataClean
